import Mathlib

/-!
Verification development for a minimal proof-of-work blockchain node
(`blockchain_node/main.py`, `blockchain_node/smart_contract.py`, `PoW.py`).

Modelling conventions:
* A SHA-256 hex digest is a list of 64 hex nibbles (each `< 16`), most
  significant first.  String equality of hex digests coincides with list
  equality, and `startswith('0' * d)` is "the first `d` nibbles are 0".
* `calculate_hash` (SHA-256 of the sorted-key JSON encoding of the block
  without its `hash` field) is an uninterpreted parameter
  `H : BlockContent → Digest`; nothing in the node logic depends on which
  function it is.
* Python dict-valued transactions are records of `Option` fields: `none`
  models an absent key.
* `time.time()`, `random.randint` and the SHA-256-based contract-id
  generator are oracles carried by `EngineState` (`clock`, `rng`, `genId`),
  consumed tick by tick, so every operation is a deterministic function of
  the state.  Timestamps are modelled as integers.
* Contract source code cannot be `exec`ed in Lean; a `Code` value bundles
  the source text (used for identity/equality, as in the Python dicts)
  with the table of functions the `exec` would define.  A contract
  function receives the capability environment of
  `smart_contract.execute_contract` (caller, args, read view of its own
  state partition, the clock) and reports its ordered `set_state` write
  log together with a normal return or a raised-exception message; the
  writes performed before a fault are part of the log, exactly as the
  Python `set_state` applies them immediately.
-/

/-- A hex digest: 64 nibbles, most significant first. -/
abbrev Digest := List Nat

/-- Association-list lookup, modelling Python `dict.get` /  `key in dict`. -/
def lookupAssoc {α : Type} : List (String × α) → String → Option α
  | [], _ => none
  | (k, v) :: rest, key => if k = key then some v else lookupAssoc rest key

/-- Association-list store, modelling Python `dict[key] = value`:
an existing key keeps its position, a new key is appended. -/
def updateAssoc {α : Type} : List (String × α) → String → α → List (String × α)
  | [], key, val => [(key, val)]
  | (k, v) :: rest, key, val =>
    if k = key then (k, val) :: rest else (k, v) :: updateAssoc rest key val

/-- The Python values contract code stores and passes around. -/
inductive PyValue where
  | int (n : Int)
  | str (s : String)
  | bool (b : Bool)
deriving DecidableEq, Repr

/-- Python `str()` of a stored value. -/
def pyStr : PyValue → String
  | .int n => toString n
  | .str s => s
  | .bool true => "True"
  | .bool false => "False"

/-- Python truthiness of an optional value (`None` is falsy). -/
def truthy : Option PyValue → Bool
  | none => false
  | some (.int n) => n ≠ 0
  | some (.str s) => s ≠ ""
  | some (.bool b) => b

/-- `x or 0` / `args.get(k, 0)` coercion used by the example contracts:
an absent or `None` value counts as `0`.  (The example contracts only
ever store integers under the keys they read this way.) -/
def pyIntOr0 : Option PyValue → Int
  | some (.int n) => n
  | _ => 0

/-- `output` of a contract deployment/execution result: Python returns
either a string or a list of `"key:value"` strings. -/
inductive ExecOutput where
  | str (s : String)
  | list (xs : List String)
deriving DecidableEq, Repr

/-- The capability environment `execute_contract` builds for a call
(`env` minus the state accessors, which are passed separately). -/
structure CallCtx where
  contract_id : String
  caller : String
  args : List (String × PyValue)
  now : Int
deriving Repr

/-- What one contract-function execution did: its ordered `set_state`
write log (including writes made before a fault) and either a returned
value or the message of a raised exception. -/
structure FnOutcome where
  ret : Except String PyValue
  writes : List (String × PyValue)

/-- A contract function: the capability environment plus a read view of
the contract's own state partition (`get_state`). -/
abbrev ContractFn := CallCtx → (String → Option PyValue) → FnOutcome

/-- Contract code: the source text plus the function table its `exec`
defines.  `compileOk = false` models `compile(code, ...)` raising. -/
structure Code where
  text : String
  compileOk : Bool
  compileMsg : String
  fns : List (String × ContractFn)

/-- An entry of `deployed_contracts`. -/
structure Contract where
  code : Code
  owner : String

/-- The `smart_contract` module state: the deployed-contract store, the
contract state database (keys `"{contract_id}-{var}"`), and the oracles
for `time.time()`, `random.randint` and the SHA-256-based contract-id
derivation, consumed one `tick` per engine call. -/
structure EngineState where
  deployed_contracts : List (String × Contract)
  contract_state_db : List (String × PyValue)
  clock : Nat → Int
  rng : Nat → Nat
  genId : String → String → Int → Nat → String
  tick : Nat

/-- Result dict of `deploy_contract`. -/
structure DeployResult where
  success : Bool
  output : ExecOutput
  contract_id : Option String
deriving DecidableEq, Repr

/-- Result dict of `execute_contract`. -/
structure ExecResult where
  success : Bool
  output : ExecOutput
deriving DecidableEq, Repr

/-- `smart_contract.deploy_contract`: validate (compile) the code,
derive a fresh id from `(code, owner, time.time(), random.randint(...))`,
and store the contract. -/
def deploy_contract (S : EngineState) (code : Code) (owner : String) :
    DeployResult × EngineState :=
  if code.compileOk then
    let contract_id := S.genId code.text owner (S.clock S.tick) (S.rng S.tick)
    ({ success := true, output := .str "Success", contract_id := some contract_id },
     { S with
        deployed_contracts :=
          updateAssoc S.deployed_contracts contract_id { code := code, owner := owner }
        tick := S.tick + 1 })
  else
    ({ success := false, output := .str ("Fail: " ++ code.compileMsg),
       contract_id := none }, S)

/-- `get_state`: read of the contract's own partition of
`contract_state_db` (key prefix `"{contract_id}-"`). -/
def localView (db : List (String × PyValue)) (contract_id : String) :
    String → Option PyValue :=
  fun key => lookupAssoc db (contract_id ++ "-" ++ key)

/-- Replay a `set_state` write log against the global state db. -/
def applyWrites (db : List (String × PyValue)) (contract_id : String)
    (writes : List (String × PyValue)) : List (String × PyValue) :=
  writes.foldl (fun acc kv => updateAssoc acc (contract_id ++ "-" ++ kv.1) kv.2) db

/-- `contract_state_changes`: the write log folded into a dict (a
rewritten key keeps its first position, as in a Python dict). -/
def changesOf (writes : List (String × PyValue)) : List (String × PyValue) :=
  writes.foldl (fun acc kv => updateAssoc acc kv.1 kv.2) []

/-- The `output` of a successful call: the `"{full_key}:{value}"` strings
of the state changes, or `"Success"` if there were none. -/
def outputOf (contract_id : String) (writes : List (String × PyValue)) : ExecOutput :=
  let ch := changesOf writes
  if ch.isEmpty then .str "Success"
  else .list (ch.map fun kv => contract_id ++ "-" ++ kv.1 ++ ":" ++ pyStr kv.2)

/-- `smart_contract.execute_contract`: look the contract and function up,
run the function with the capability environment, apply its write log to
`contract_state_db` (immediately, whether or not it raised — there is no
rollback), and report either the state-change output or
`"Fail: {message}"`.  The `save_state_to_disk` call is out of scope. -/
def execute_contract (S : EngineState) (contract_id caller function : String)
    (args : List (String × PyValue)) : ExecResult × EngineState :=
  match lookupAssoc S.deployed_contracts contract_id with
  | none => ({ success := false, output := .str "Fail: Contract not found" }, S)
  | some contract =>
    match lookupAssoc contract.code.fns function with
    | none =>
      ({ success := false,
         output := .str ("Fail: Function " ++ function ++ " not found") }, S)
    | some f =>
      let ctx : CallCtx :=
        { contract_id := contract_id, caller := caller, args := args,
          now := S.clock S.tick }
      let o := f ctx (localView S.contract_state_db contract_id)
      let S' := { S with
        contract_state_db := applyWrites S.contract_state_db contract_id o.writes
        tick := S.tick + 1 }
      match o.ret with
      | .ok _ => ({ success := true, output := outputOf contract_id o.writes }, S')
      | .error msg => ({ success := false, output := .str ("Fail: " ++ msg) }, S')

/-! ### The example contracts of `smart_contract.py`

Translations of the Python sources returned by `create_transfer_contract`
and `create_auction_contract`.  (The auction contract's `get_status`
returns a Python dict and touches no state; it is not modelled.) -/

/-- `init` of the transfer contract. -/
def transferInit : ContractFn := fun _ _ =>
  { ret := .ok (.str "Transfer contract initialized"),
    writes := [("balance", .int 0)] }

/-- `deposit` of the transfer contract. -/
def transferDeposit : ContractFn := fun ctx view =>
  let current_balance := pyIntOr0 (view "balance")
  let amount := pyIntOr0 (lookupAssoc ctx.args "amount")
  let new_balance := current_balance + amount
  { ret := .ok (.str ("Deposited " ++ toString amount ++ ", new balance: " ++
      toString new_balance)),
    writes := [("balance", .int new_balance)] }

/-- `withdraw` of the transfer contract: raises before any write when the
balance is insufficient. -/
def transferWithdraw : ContractFn := fun ctx view =>
  let current_balance := pyIntOr0 (view "balance")
  let amount := pyIntOr0 (lookupAssoc ctx.args "amount")
  if amount > current_balance then
    { ret := .error "Insufficient balance", writes := [] }
  else
    let new_balance := current_balance - amount
    { ret := .ok (.str ("Withdrawn " ++ toString amount ++ ", new balance: " ++
        toString new_balance)),
      writes := [("balance", .int new_balance)] }

/-- `get_balance` of the transfer contract. -/
def transferGetBalance : ContractFn := fun _ view =>
  { ret := .ok (.int (pyIntOr0 (view "balance"))), writes := [] }

/-- The transfer contract of `create_transfer_contract` (source text
abbreviated; only its identity matters to the node logic). -/
def transferCode : Code :=
  { text := "TRANSFER_CONTRACT_SOURCE", compileOk := true, compileMsg := "",
    fns := [("init", transferInit), ("deposit", transferDeposit),
            ("withdraw", transferWithdraw), ("get_balance", transferGetBalance)] }

/-- `init` of the auction contract: note the clock-dependent
`end_time = args.get('duration', 3600) + time.time()` write.  (The
redundant direct `contract_state_changes[...]` assignments in the source
write the same keys and values as the `set_state` calls.) -/
def auctionInit : ContractFn := fun ctx _ =>
  let duration := match lookupAssoc ctx.args "duration" with
    | some (.int n) => n
    | _ => 3600
  let description := (lookupAssoc ctx.args "description").getD
    (.str "No description")
  { ret := .ok (.str ("Auction contract " ++ ctx.contract_id ++ " initialized")),
    writes := [("highest_bid", .int 0), ("highest_bidder", .str ""),
               ("end_time", .int (duration + ctx.now)), ("owner", .str ctx.caller),
               ("item_description", description), ("closed", .bool false)] }

/-- `bid` of the auction contract: the `set_state('closed', True)` made
just before raising "Auction has ended" stays in the write log. -/
def auctionBid : ContractFn := fun ctx view =>
  if truthy (view "closed") then
    { ret := .error "Auction is closed", writes := [] }
  else if ctx.now > pyIntOr0 (view "end_time") then
    { ret := .error "Auction has ended", writes := [("closed", .bool true)] }
  else
    let current_highest := pyIntOr0 (view "highest_bid")
    let bid_amount := pyIntOr0 (lookupAssoc ctx.args "amount")
    if bid_amount ≤ current_highest then
      { ret := .error ("Bid must be higher than current highest bid: " ++
          toString current_highest), writes := [] }
    else
      { ret := .ok (.str ("New highest bid: " ++ toString bid_amount ++ " by " ++
          ctx.caller)),
        writes := [("highest_bid", .int bid_amount),
                   ("highest_bidder", .str ctx.caller)] }

/-- `end_auction` of the auction contract. -/
def auctionEnd : ContractFn := fun ctx view =>
  if view "owner" ≠ some (.str ctx.caller) then
    { ret := .error "Only the owner can end the auction", writes := [] }
  else if truthy (view "closed") then
    { ret := .error "Auction is already closed", writes := [] }
  else
    let winner := (view "highest_bidder").elim "None" pyStr
    let amount := (view "highest_bid").elim "None" pyStr
    { ret := .ok (.str ("Auction ended. Winner: " ++ winner ++ ", Amount: " ++
        amount)),
      writes := [("closed", .bool true)] }

/-- The auction contract of `create_auction_contract`. -/
def auctionCode : Code :=
  { text := "AUCTION_CONTRACT_SOURCE", compileOk := true, compileMsg := "",
    fns := [("init", auctionInit), ("bid", auctionBid),
            ("end_auction", auctionEnd)] }

/-! ### The node (`blockchain_node/main.py`) -/

/-- A transaction dict.  Every field a `main.py` transaction may carry is
an `Option`; `none` models an absent key.  (`from` and `to` are Lean
keywords, so those fields are called `from_` and `to_`; `code` bundles the Python source
string with its compiled function table, see `Code`.) -/
structure Transaction where
  timestamp : Option Int := none
  from_ : Option String := none
  to_ : Option String := none
  value : Option Int := none
  signature : Option String := none
  type : Option String := none
  code : Option Code := none
  contract_id : Option String := none
  function : Option String := none
  args : Option (List (String × PyValue)) := none
  result : Option ExecOutput := none

/-- The fields of a block that `calculate_hash` hashes (everything except
the `hash` field itself). -/
structure BlockContent where
  height : Int
  timestamp : Int
  transactions : List Transaction
  previous_hash : Digest
  nonce : Nat

/-- A block dict: its content plus the stored `hash` field.  (Incoming
blocks are modelled with all structural fields present, so
`validate_block`'s required-fields check is always satisfied.) -/
structure Block extends BlockContent where
  hash : Digest

/-- The node's global mutable state: `blockchain`,
`pending_transactions`, `account_balances`, `mined_nonces` (a set,
modelled as a duplicate-free list), and the `smart_contract` module
state. -/
structure NodeState where
  blockchain : List Block
  pending_transactions : List Transaction
  account_balances : List (String × Int)
  mined_nonces : List Nat
  engine : EngineState

/-- Python `set.add`. -/
def addNonce (nonces : List Nat) (n : Nat) : List Nat :=
  if nonces.contains n then nonces else n :: nonces

/-- `hash_string.startswith('0' * d)` on a hex digest: the digest has at
least `d` nibbles and the first `d` of them are zero.  (Python's
`startswith` is `False` whenever the prefix is longer than the string,
so a prefix-length check is part of the semantics.) -/
def startsWithZeros (digest : Digest) (d : Nat) : Bool :=
  decide (d ≤ digest.length) && (digest.take d).all (fun x => x == 0)

section Node

/- `H` models `calculate_hash` (SHA-256 over the sorted-key JSON encoding
of the block without its `hash` field); `difficulty` is the process-wide
`DIFFICULTY` configuration value. -/
variable (H : BlockContent → Digest) (difficulty : Nat)

/-- `main.calculate_hash`: hash of the block minus its `hash` field. -/
def calculate_hash (block : Block) : Digest :=
  H block.toBlockContent

/-- `main.is_valid_proof` (the `block` argument is unused in the
source). -/
def is_valid_proof (_block : Block) (block_hash : Digest) : Bool :=
  startsWithZeros block_hash difficulty

/-- `main.validate_transfer_transaction`: all of
`timestamp, from, to, value, signature` present; `COINBASE` senders are
always valid; otherwise the sender must exist with balance ≥ value.
(Signature verification is not performed in the source.) -/
def validate_transfer_transaction (balances : List (String × Int))
    (tx : Transaction) : Bool :=
  match tx.timestamp, tx.from_, tx.to_, tx.value, tx.signature with
  | some _, some sender, some _, some value, some _ =>
    if sender = "COINBASE" then true
    else
      match lookupAssoc balances sender with
      | none => false
      | some b => if b < value then false else true
  | _, _, _, _, _ => false

/-- `main.validate_deploy_contract_transaction`: required fields, sender
exists, then a pre-execution of `deploy_contract` whose durable effect on
the engine state is kept; on success the fresh `contract_id` and `result`
are written into the transaction. -/
def validate_deploy_contract_transaction (balances : List (String × Int))
    (eng : EngineState) (tx : Transaction) : Bool × Transaction × EngineState :=
  match tx.timestamp, tx.from_, tx.code, tx.signature, tx.type with
  | some _, some sender, some code, some _, some _ =>
    if (lookupAssoc balances sender).isNone then (false, tx, eng)
    else
      match deploy_contract eng code sender with
      | (res, eng') =>
        if res.success then
          (true, { tx with contract_id := res.contract_id,
                           result := some res.output }, eng')
        else (false, tx, eng')
  | _, _, _, _, _ => (false, tx, eng)

/-- `main.validate_call_contract_transaction`: required fields, sender
exists, then a pre-execution of `execute_contract` (whose state effects
are kept); on success the `result` is written into the transaction. -/
def validate_call_contract_transaction (balances : List (String × Int))
    (eng : EngineState) (tx : Transaction) : Bool × Transaction × EngineState :=
  match tx.timestamp, tx.from_, tx.contract_id, tx.function, tx.signature, tx.type with
  | some _, some sender, some cid, some fn, some _, some _ =>
    if (lookupAssoc balances sender).isNone then (false, tx, eng)
    else
      match execute_contract eng cid sender fn (tx.args.getD []) with
      | (res, eng') =>
        if res.success then
          (true, { tx with result := some res.output }, eng')
        else (false, tx, eng')
  | _, _, _, _, _, _ => (false, tx, eng)

/-- `main.validate_transaction`: default a missing `type` to
`"transfer"` (mutating the transaction, as the source does) and dispatch.
Returns the verdict, the possibly-mutated transaction, and the engine
state after any pre-execution. -/
def validate_transaction (balances : List (String × Int)) (eng : EngineState)
    (tx : Transaction) : Bool × Transaction × EngineState :=
  let tx := if tx.type.isNone then { tx with type := some "transfer" } else tx
  match tx.type with
  | some "transfer" => (validate_transfer_transaction balances tx, tx, eng)
  | some "deploy_contract" => validate_deploy_contract_transaction balances eng tx
  | some "call_contract" => validate_call_contract_transaction balances eng tx
  | _ => (false, tx, eng)

/-- `main.process_transfer_transaction`: debit the sender (skipped for
`COINBASE`; fails, mutating nothing, if the sender is missing or short),
create the receiver at 0 if absent, credit the receiver. -/
def process_transfer_transaction (balances : List (String × Int))
    (tx : Transaction) : Bool × List (String × Int) :=
  let sender := tx.from_.getD ""
  let receiver := tx.to_.getD ""
  let value := tx.value.getD 0
  let debited : Option (List (String × Int)) :=
    if sender = "COINBASE" then some balances
    else
      match lookupAssoc balances sender with
      | none => none
      | some b => if b < value then none else some (updateAssoc balances sender (b - value))
  match debited with
  | none => (false, balances)
  | some balances1 =>
    let balances2 :=
      if (lookupAssoc balances1 receiver).isNone then updateAssoc balances1 receiver 0
      else balances1
    (true, updateAssoc balances2 receiver ((lookupAssoc balances2 receiver).getD 0 + value))

/-- `main.process_deploy_contract_transaction`: re-deploy (a fresh id is
generated) and fill `contract_id`/`result` into the transaction only if
absent.  (A missing `code` field would raise a `KeyError` in the source;
it is unreachable for transactions that passed validation and is
modelled as failure.) -/
def process_deploy_contract_transaction (eng : EngineState) (tx : Transaction) :
    Bool × Transaction × EngineState :=
  match tx.code with
  | none => (false, tx, eng)
  | some code =>
    match deploy_contract eng code (tx.from_.getD "") with
    | (res, eng') =>
      if res.success then
        let tx1 := if tx.contract_id.isNone then { tx with contract_id := res.contract_id } else tx
        let tx2 := if tx1.result.isNone then { tx1 with result := some res.output } else tx1
        (true, tx2, eng')
      else (false, tx, eng')

/-- `main.process_call_contract_transaction`: re-execute and fill
`result` into the transaction if absent.  (Missing `contract_id` or
`function` would raise a `KeyError`; unreachable after validation,
modelled as failure.) -/
def process_call_contract_transaction (eng : EngineState) (tx : Transaction) :
    Bool × Transaction × EngineState :=
  match tx.contract_id, tx.function with
  | some cid, some fn =>
    match execute_contract eng cid (tx.from_.getD "") fn (tx.args.getD []) with
    | (res, eng') =>
      if res.success then
        (true, (if tx.result.isNone then { tx with result := some res.output } else tx), eng')
      else (false, tx, eng')
  | _, _ => (false, tx, eng)

/-- `main.process_transaction`: dispatch on `tx.get('type', 'transfer')`.
Returns the verdict, the possibly-mutated transaction, and the updated
balances and engine state. -/
def process_transaction (balances : List (String × Int)) (eng : EngineState)
    (tx : Transaction) : Bool × Transaction × List (String × Int) × EngineState :=
  match tx.type.getD "transfer" with
  | "transfer" =>
    match process_transfer_transaction balances tx with
    | (ok, balances') => (ok, tx, balances', eng)
  | "deploy_contract" =>
    match process_deploy_contract_transaction eng tx with
    | (ok, tx', eng') => (ok, tx', balances, eng')
  | "call_contract" =>
    match process_call_contract_transaction eng tx with
    | (ok, tx', eng') => (ok, tx', balances, eng')
  | _ => (false, tx, balances, eng)

/-- The per-transaction loop of `main.validate_block`: validate each
transaction (keeping its in-place mutation and the engine effects of
pre-execution), and for contract transactions carrying a `result`,
re-execute and require the fresh output to equal the recorded `result`.
Invalid transactions are collected (the loop continues); the block is
valid iff none were collected. -/
def validate_block_txs (balances : List (String × Int)) :
    EngineState → List Transaction → List Transaction × EngineState × Bool
  | eng, [] => ([], eng, true)
  | eng, tx :: rest =>
    match validate_transaction balances eng tx with
    | (ok, tx', eng') =>
      if ok then
        let (txOk, eng'') :=
          if tx'.type = some "deploy_contract" ∧ tx'.result.isSome then
            match tx'.code with
            | some code =>
              match deploy_contract eng' code (tx'.from_.getD "") with
              | (res, e2) => (decide (some res.output = tx'.result), e2)
            | none => (true, eng')
          else if tx'.type = some "call_contract" ∧ tx'.result.isSome then
            match tx'.contract_id, tx'.function with
            | some cid, some fn =>
              match execute_contract eng' cid (tx'.from_.getD "") fn (tx'.args.getD []) with
              | (res, e2) => (decide (some res.output = tx'.result), e2)
            | _, _ => (true, eng')
          else (true, eng')
        match validate_block_txs balances eng'' rest with
        | (txs, engF, restOk) => (tx' :: txs, engF, txOk && restOk)
      else
        match validate_block_txs balances eng' rest with
        | (txs, engF, _) => (tx' :: txs, engF, false)

/-- `main.validate_block`: require the recomputed hash to equal the
stored `hash`, require the difficulty predicate, then validate all
transactions.  The height and previous-hash comparisons in the source
only log (they never reject); the required-fields check is always
satisfied by the `Block` structure.  Returns the verdict, the block with
its (possibly mutated) transactions, and the engine state after the
pre-executions. -/
def validate_block (balances : List (String × Int)) (eng : EngineState)
    (block : Block) : Bool × Block × EngineState :=
  if H block.toBlockContent ≠ block.hash then (false, block, eng)
  else if ¬ startsWithZeros block.hash difficulty then (false, block, eng)
  else
    match validate_block_txs balances eng block.transactions with
    | (txs', engF, ok) => (ok, { block with transactions := txs' }, engF)

/-- The mempool pruning of `main.process_new_block` for one committed
transaction: drop pending transactions matching on
`(from, to, value)` / `(from, code)` / `(from, contract_id, function)`
according to the committed transaction's type.  (Python compares the
`code` strings; here that is the `text` component.) -/
def removeMatching (pending : List Transaction) (tx : Transaction) :
    List Transaction :=
  match tx.type.getD "transfer" with
  | "transfer" =>
    pending.filter fun t => ¬ (t.type.getD "transfer" = "transfer" ∧
      t.from_ = tx.from_ ∧ t.to_ = tx.to_ ∧ t.value = tx.value)
  | "deploy_contract" =>
    pending.filter fun t => ¬ (t.type = some "deploy_contract" ∧
      t.from_ = tx.from_ ∧ t.code.map Code.text = tx.code.map Code.text)
  | "call_contract" =>
    pending.filter fun t => ¬ (t.type = some "call_contract" ∧
      t.from_ = tx.from_ ∧ t.contract_id = tx.contract_id ∧
      t.function = tx.function)
  | _ => pending

/-- The transaction-commit loop of `main.process_new_block`: each
transaction is processed — **its boolean verdict is discarded** — and
matching pending transactions are pruned. -/
def process_block_txs (balances : List (String × Int)) (eng : EngineState)
    (pending : List Transaction) :
    List Transaction → List (String × Int) × EngineState × List Transaction × List Transaction
  | [] => (balances, eng, [], pending)
  | tx :: rest =>
    match process_transaction balances eng tx with
    | (_ok, tx', balances', eng') =>
      let pending' := removeMatching pending tx'
      match process_block_txs balances' eng' pending' rest with
      | (balF, engF, txsF, pendF) => (balF, engF, tx' :: txsF, pendF)

/-- The acceptance tail of `main.process_new_block`: record the nonce
(with no uniqueness check), append the block, commit every transaction
(ignoring per-transaction failures) and prune the mempool. -/
def commit_block (st : NodeState) (block : Block) : Bool × NodeState :=
  match process_block_txs st.account_balances st.engine
      st.pending_transactions block.transactions with
  | (balF, engF, txsF, pendF) =>
    (true, { blockchain := st.blockchain ++ [{ block with transactions := txsF }],
             pending_transactions := pendF, account_balances := balF,
             mined_nonces := addNonce st.mined_nonces block.nonce,
             engine := engF })

/-- `main.process_new_block`: validate, then — only when the block's
`previous_hash` differs from the tip's hash — apply the longest-chain
fork rule (`height ≤ tip.height` rejects); otherwise commit.  Note that
the engine-state side effects of validation persist even when the block
is rejected. -/
def process_new_block (st : NodeState) (block : Block) : Bool × NodeState :=
  match validate_block H difficulty st.account_balances st.engine block with
  | (false, _, eng1) => (false, { st with engine := eng1 })
  | (true, block', eng1) =>
    let st1 := { st with engine := eng1 }
    match st.blockchain.getLast? with
    | none => commit_block st1 block'
    | some tip =>
      if block'.previous_hash ≠ tip.hash ∧ block'.height ≤ tip.height then
        (false, st1)
      else commit_block st1 block'

/-- The nonce-search loop of `main.mine_block` over the successive draws
of `random.randint(0, 1000000)`: accept the first draw that is not in
`mined_nonces` and whose hash meets the difficulty. -/
def mine_block_go (minedNonces : List Nat) (transactions : List Transaction)
    (previous_hash : Digest) (height timestamp : Int) :
    List Nat → Option Block
  | [] => none
  | n :: rest =>
    let content : BlockContent :=
      { height := height, timestamp := timestamp, transactions := transactions,
        previous_hash := previous_hash, nonce := n }
    let block_hash := H content
    if !minedNonces.contains n && startsWithZeros block_hash difficulty then
      some { content with hash := block_hash }
    else mine_block_go minedNonces transactions previous_hash height timestamp rest

/-- `main.mine_block`: the timestamp is fixed once; at most
`max_attempts = 10000` draws are tried; `None` on exhaustion. -/
def mine_block (minedNonces : List Nat) (transactions : List Transaction)
    (previous_hash : Digest) (height timestamp : Int) (draws : List Nat) :
    Option Block :=
  mine_block_go H difficulty minedNonces transactions previous_hash height
    timestamp (draws.take 10000)

/-- `main.create_genesis_block`: height 0, no transactions,
`previous_hash = "0" * 64`, nonce 0, hash computed — but never checked
against the difficulty predicate. -/
def create_genesis_block (timestamp : Int) : Block :=
  let content : BlockContent :=
    { height := 0, timestamp := timestamp, transactions := [],
      previous_hash := List.replicate 64 0, nonce := 0 }
  { content with hash := H content }

/-- The node state after `main.main`'s initialization: the genesis chain
and the initial 1000-coin grant to the node's own address (the engine
state — possibly already holding the example contracts — is a
parameter). -/
def initial_state (nodeAddr : String) (genesisTime : Int) (eng : EngineState) :
    NodeState :=
  { blockchain := [create_genesis_block H genesisTime],
    pending_transactions := [], account_balances := [(nodeAddr, 1000)],
    mined_nonces := [], engine := eng }

/-- Fold `process_new_block` over a sequence of submitted blocks. -/
def admitBlocks (st : NodeState) : List Block → NodeState
  | [] => st
  | b :: rest => admitBlocks (process_new_block H difficulty st b).2 rest

end Node

/-! ### `PoW.py` -/

/-- `PoW.calculate_target`: `((1 << 256) - 1) >> (difficulty * 4)`. -/
def calculate_target (difficulty : Nat) : Nat :=
  ((1 <<< 256) - 1) >>> (difficulty * 4)

/-- The value of a hex digest as an unsigned integer (nibbles most
significant first): `int(hash_result, 16)` in `PoW.mine_block`. -/
def nibblesVal : List Nat → Nat
  | [] => 0
  | x :: xs => x * 16 ^ xs.length + nibblesVal xs

/-! ### Concrete instances used by witnesses and counterexamples -/

/-- A concrete hash oracle mapping every block content to the all-zero
digest (which meets any difficulty). -/
def Hc : BlockContent → Digest := fun _ => List.replicate 64 0

/-- A concrete hash oracle mapping every block content to the all-`f`
digest (which meets no positive difficulty). -/
def Hcx : BlockContent → Digest := fun _ => List.replicate 64 15

/-- An empty engine state with constant oracles. -/
def engine0 : EngineState :=
  { deployed_contracts := [], contract_state_db := [], clock := fun _ => 0,
    rng := fun _ => 0, genId := fun _ _ _ _ => "", tick := 0 }

/-- A height-0 tip whose hash is the all-zero digest (consistent with
`Hc`). -/
def tip0 : Block :=
  { height := 0, timestamp := 0, transactions := [],
    previous_hash := List.replicate 64 0, nonce := 0,
    hash := List.replicate 64 0 }

/-- A node state whose chain is just `tip0`. -/
def st0 : NodeState :=
  { blockchain := [tip0], pending_transactions := [], account_balances := [],
    mined_nonces := [], engine := engine0 }

/-- A valid empty block at the same height as the tip (0), extending the
tip's hash. -/
def blockDupHeight : Block :=
  { height := 0, timestamp := 4, transactions := [],
    previous_hash := List.replicate 64 0, nonce := 9,
    hash := List.replicate 64 0 }

/-- A valid empty block at height `tip.height + 1` extending the tip. -/
def blockNext : Block :=
  { height := 1, timestamp := 2, transactions := [],
    previous_hash := List.replicate 64 0, nonce := 3,
    hash := List.replicate 64 0 }

/-- A valid empty block at the tip's height whose `previous_hash` does
not match the tip. -/
def blockPrevMismatch : Block :=
  { height := 0, timestamp := 6, transactions := [],
    previous_hash := List.replicate 64 15, nonce := 4,
    hash := List.replicate 64 0 }

/-- A block whose stored hash differs from its recomputed (`Hc`) hash. -/
def badHashBlock : Block :=
  { height := 1, timestamp := 1, transactions := [],
    previous_hash := List.replicate 64 0, nonce := 1,
    hash := List.replicate 64 15 }

/-- Node state for the duplicate-nonce counterexample: the tip's nonce 0
is already recorded in `mined_nonces`. -/
def stC2 : NodeState :=
  { blockchain := [tip0], pending_transactions := [], account_balances := [],
    mined_nonces := [0], engine := engine0 }

/-- A valid block reusing the tip's nonce 0. -/
def blockDupNonce : Block :=
  { height := 1, timestamp := 3, transactions := [],
    previous_hash := List.replicate 64 0, nonce := 0,
    hash := List.replicate 64 0 }

/-- The block `mine_block Hc 4 [1] [] ("0"*64) 1 5 [1, 2]` finds on its
second draw. -/
def minedBlockW : Block :=
  { height := 1, timestamp := 5, transactions := [],
    previous_hash := List.replicate 64 0, nonce := 2,
    hash := List.replicate 64 0 }

/-- Transfer `A → B` of 60. -/
def txAB : Transaction :=
  { timestamp := some 1, from_ := some "A", to_ := some "B", value := some 60,
    signature := some "sigAB", type := some "transfer" }

/-- Transfer `A → C` of 60. -/
def txAC : Transaction :=
  { timestamp := some 1, from_ := some "A", to_ := some "C", value := some 60,
    signature := some "sigAC", type := some "transfer" }

/-- Node state with account `A` holding 100. -/
def st10 : NodeState :=
  { blockchain := [tip0], pending_transactions := [],
    account_balances := [("A", 100)], mined_nonces := [], engine := engine0 }

/-- A valid block carrying the two 60-coin transfers from `A` (each
individually valid against `A`'s pre-commit balance of 100). -/
def blockOverspend : Block :=
  { height := 1, timestamp := 2, transactions := [txAB, txAC],
    previous_hash := List.replicate 64 0, nonce := 1,
    hash := List.replicate 64 0 }

/-- Engine state with the transfer contract deployed as `"c1"`. -/
def E5 : EngineState :=
  { deployed_contracts := [("c1", { code := transferCode, owner := "alice" })],
    contract_state_db := [], clock := fun _ => 0, rng := fun _ => 0,
    genId := fun _ _ _ _ => "", tick := 0 }

/-- `E5` after calling `init` on `"c1"`. -/
def E5init : EngineState := (execute_contract E5 "c1" "alice" "init" []).2

/-- `E5init` after `deposit` with `amount = 100`. -/
def E5deposit : EngineState :=
  (execute_contract E5init "c1" "alice" "deposit" [("amount", .int 100)]).2

/-- Engine state with the auction contract deployed as `"a1"`, clock
stuck at 0. -/
def S6a : EngineState :=
  { deployed_contracts := [("a1", { code := auctionCode, owner := "alice" })],
    contract_state_db := [], clock := fun _ => 0, rng := fun _ => 0,
    genId := fun _ _ _ _ => "", tick := 0 }

/-- `S6a` with the clock stuck at 1 instead (same contracts, same
contract state). -/
def S6b : EngineState := { S6a with clock := fun _ => 1 }

/-- `S6a` with a different `rng` oracle but the same clock reading. -/
def S6c : EngineState := { S6a with rng := fun _ => 5 }

/-- A trivially compilable contract source (`x = 1`). -/
def codeX : Code :=
  { text := "x = 1", compileOk := true, compileMsg := "", fns := [] }

/-- Hash oracle that distinguishes blocks by whether any of their
transactions carries a `contract_id`: all-zero if none does, all-`f`
otherwise.  Used to exhibit that validation's in-place rewriting of a
deploy transaction changes the block content that was hashed. -/
def HX : BlockContent → Digest := fun c =>
  if c.transactions.all (fun t => t.contract_id.isNone) then List.replicate 64 0
  else List.replicate 64 15

/-- Engine whose id generator always yields `"cid1"`. -/
def engX : EngineState :=
  { deployed_contracts := [], contract_state_db := [], clock := fun _ => 0,
    rng := fun _ => 0, genId := fun _ _ _ _ => "cid1", tick := 0 }

/-- The node state `initial_state HX "N" 0 engX` (genesis hash all-zero
under `HX`). -/
def stX : NodeState := initial_state HX "N" 0 engX

/-- A deploy transaction from `"N"` (no `contract_id` yet). -/
def txD : Transaction :=
  { timestamp := some 1, from_ := some "N", code := some codeX,
    signature := some "s", type := some "deploy_contract" }

/-- `txD` as validation rewrites it: fresh `contract_id` and `result`
attached in place. -/
def txDv : Transaction :=
  { txD with contract_id := some "cid1", result := some (.str "Success") }

/-- A block carrying `txD`, valid as submitted under `HX` at
difficulty 0. -/
def blockD : Block :=
  { height := 1, timestamp := 2, transactions := [txD],
    previous_hash := List.replicate 64 0, nonce := 1,
    hash := List.replicate 64 0 }

/-- `blockD` as it is stored after admission: its transaction was
rewritten to `txDv`. -/
def blockDstored : Block := { blockD with transactions := [txDv] }

/-- Engine whose id generator is injective in the time draw and whose
clock advances by one per engine call (`0, 1, 2, ...`). -/
def E9 : EngineState :=
  { deployed_contracts := [], contract_state_db := [],
    clock := fun n => (n : Int), rng := fun _ => 0,
    genId := fun _ _ t _ => if t = 0 then "id0" else "id1", tick := 0 }

/-- A deploy transaction from `"alice"`. -/
def tx9 : Transaction :=
  { timestamp := some 0, from_ := some "alice", code := some codeX,
    signature := some "s", type := some "deploy_contract" }

/-- Balances giving `"alice"` an account. -/
def bal9 : List (String × Int) := [("alice", 1000)]

/-- The boundary digest `0x0fff...f`: one leading zero nibble, value
`16^63 - 1`. -/
def digest0f : Digest := 0 :: List.replicate 63 15

/-! ### Helper lemmas: digests as integers (C8) -/

/-- A digest of nibbles `< 16` is bounded by `16 ^ length`. -/
theorem nibblesVal_lt_pow (l : List Nat) (h : ∀ x ∈ l, x < 16) :
    nibblesVal l < 16 ^ l.length := by
  induction l with
  | nil => simp [nibblesVal]
  | cons x xs ih =>
    have hx : x < 16 := h x (by simp)
    have hxs : nibblesVal xs < 16 ^ xs.length :=
      ih (fun y hy => h y (by simp [hy]))
    simp only [nibblesVal, List.length_cons]
    calc x * 16 ^ xs.length + nibblesVal xs
        < x * 16 ^ xs.length + 16 ^ xs.length := by omega
      _ = (x + 1) * 16 ^ xs.length := by ring
      _ ≤ 16 * 16 ^ xs.length := Nat.mul_le_mul_right _ (by omega)
      _ = 16 ^ (xs.length + 1) := by ring

/-- The first `d` nibbles of a digest are zero iff its value is below
`16 ^ (length - d)`. -/
theorem take_all_zero_iff (l : List Nat) (h : ∀ x ∈ l, x < 16) :
    ∀ d : Nat, ((l.take d).all (fun x => x == 0) = true ↔
      nibblesVal l < 16 ^ (l.length - d)) := by
  induction l with
  | nil => intro d; simp [nibblesVal]
  | cons x xs ih =>
    intro d
    cases d with
    | zero =>
      simp only [List.take_zero, Nat.sub_zero]
      exact iff_of_true (by simp) (nibblesVal_lt_pow _ h)
    | succ d =>
      have hx : x < 16 := h x (by simp)
      have hxs : ∀ y ∈ xs, y < 16 := fun y hy => h y (by simp [hy])
      simp only [List.take_succ_cons, List.all_cons, List.length_cons,
        Nat.succ_sub_succ, nibblesVal, Bool.and_eq_true, beq_iff_eq]
      by_cases hx0 : x = 0
      · subst hx0
        simpa using ih hxs d
      · constructor
        · rintro ⟨h0, -⟩; exact absurd h0 hx0
        · intro hv
          exfalso
          have h1 : 16 ^ (xs.length - d) ≤ 16 ^ xs.length :=
            Nat.pow_le_pow_right (by omega) (Nat.sub_le _ _)
          have h2 : 16 ^ xs.length ≤ x * 16 ^ xs.length :=
            Nat.le_mul_of_pos_left _ (by omega)
          omega

/-- `(a * b - 1) / a = b - 1` for positive `a`, `b`. -/
theorem pred_mul_div (a b : Nat) (ha : 0 < a) (hb : 0 < b) :
    (a * b - 1) / a = b - 1 := by
  have h : a * b - 1 = a * (b - 1) + (a - 1) := by
    have hb' : b - 1 + 1 = b := Nat.succ_pred_eq_of_pos hb
    rw [← hb', Nat.mul_add, Nat.mul_one, Nat.add_sub_cancel]
    omega
  rw [h, Nat.mul_add_div ha, Nat.div_eq_of_lt (by omega)]
  omega

/-- `calculate_target d + 1 = 16 ^ (64 - d)` for every difficulty `d`
(for `d > 64` both sides are 1). -/
theorem target_succ (d : Nat) : calculate_target d + 1 = 16 ^ (64 - d) := by
  unfold calculate_target
  have h256 : (1 <<< 256 : Nat) = 2 ^ 256 := by
    rw [Nat.shiftLeft_eq, one_mul]
  rw [Nat.shiftRight_eq_div_pow, h256]
  rcases le_or_lt d 64 with hd | hd
  · have hsplit : (2 : Nat) ^ 256 = 2 ^ (d * 4) * 2 ^ (256 - d * 4) := by
      rw [← pow_add]; congr 1; omega
    have hdiv : ((2 : Nat) ^ 256 - 1) / 2 ^ (d * 4) = 2 ^ (256 - d * 4) - 1 := by
      rw [hsplit]
      exact pred_mul_div _ _ (Nat.pos_pow_of_pos _ (by omega))
        (Nat.pos_pow_of_pos _ (by omega))
    rw [hdiv]
    have h16 : (16 : Nat) ^ (64 - d) = 2 ^ (4 * (64 - d)) := by
      rw [show (16 : Nat) = 2 ^ 4 from rfl, ← pow_mul]
    rw [h16, show 4 * (64 - d) = 256 - d * 4 by omega]
    have : (0 : Nat) < 2 ^ (256 - d * 4) := Nat.pos_pow_of_pos _ (by omega)
    omega
  · have hlt : (2 : Nat) ^ 256 - 1 < 2 ^ (d * 4) := by
      have : (2 : Nat) ^ 256 ≤ 2 ^ (d * 4) :=
        Nat.pow_le_pow_right (by omega) (by omega)
      omega
    rw [Nat.div_eq_of_lt hlt, show 64 - d = 0 by omega]
    norm_num

/-! ### Helper lemmas: block validation and admission -/

/-- Membership in `(l ++ [x]).drop 1` comes from `l.drop 1` or is `x`. -/
theorem mem_drop_one_append {α : Type} (l : List α) (x B : α)
    (h : B ∈ (l ++ [x]).drop 1) : B ∈ l.drop 1 ∨ B = x := by
  cases l with
  | nil => simp at h
  | cons g rest =>
    simp only [List.cons_append, List.drop_succ_cons, List.drop_zero] at h
    rcases List.mem_append.mp h with h1 | h2
    · exact Or.inl (by simpa using h1)
    · exact Or.inr (by simpa using h2)

/-- `validate_block` only ever rewrites the transactions of a block: all
other fields of the returned block equal the submitted ones. -/
theorem validate_block_fields (H : BlockContent → Digest) (difficulty : Nat)
    (balances : List (String × Int)) (eng : EngineState) (b : Block) :
    (validate_block H difficulty balances eng b).2.1.height = b.height ∧
    (validate_block H difficulty balances eng b).2.1.previous_hash = b.previous_hash ∧
    (validate_block H difficulty balances eng b).2.1.hash = b.hash ∧
    (validate_block H difficulty balances eng b).2.1.nonce = b.nonce := by
  unfold validate_block
  split
  · exact ⟨rfl, rfl, rfl, rfl⟩
  · split
    · exact ⟨rfl, rfl, rfl, rfl⟩
    · split
      exact ⟨rfl, rfl, rfl, rfl⟩

/-- A block that passes `validate_block` passed the recomputed-hash and
difficulty checks. -/
theorem validate_block_true (H : BlockContent → Digest) (difficulty : Nat)
    (balances : List (String × Int)) (eng : EngineState) (b : Block)
    (hv : (validate_block H difficulty balances eng b).1 = true) :
    H b.toBlockContent = b.hash ∧ startsWithZeros b.hash difficulty = true := by
  unfold validate_block at hv
  by_cases h1 : H b.toBlockContent = b.hash
  · rw [if_neg (not_not_intro h1)] at hv
    by_cases h2 : startsWithZeros b.hash difficulty = true
    · exact ⟨h1, h2⟩
    · rw [if_pos h2] at hv
      simp at hv
  · rw [if_pos h1] at hv
    simp at hv

/-- `commit_block` reports success and appends exactly one block, equal
to its argument up to the rewriting of its transactions. -/
theorem commit_block_spec (st : NodeState) (b : Block) :
    (commit_block st b).1 = true ∧
    ∃ txsF, (commit_block st b).2.blockchain =
      st.blockchain ++ [{ b with transactions := txsF }] := by
  unfold commit_block
  split
  exact ⟨rfl, _, rfl⟩

/-- Case analysis of `process_new_block`: either the block is rejected
and the ledger structures are untouched, or it is accepted, it passed
`validate_block`, and the validated block (with possibly rewritten
transactions) is appended to the chain. -/
theorem process_new_block_cases (H : BlockContent → Digest) (difficulty : Nat)
    (st : NodeState) (b : Block) :
    ((process_new_block H difficulty st b).1 = false ∧
      (process_new_block H difficulty st b).2.blockchain = st.blockchain ∧
      (process_new_block H difficulty st b).2.account_balances = st.account_balances ∧
      (process_new_block H difficulty st b).2.mined_nonces = st.mined_nonces ∧
      (process_new_block H difficulty st b).2.pending_transactions = st.pending_transactions) ∨
    ((process_new_block H difficulty st b).1 = true ∧
      (validate_block H difficulty st.account_balances st.engine b).1 = true ∧
      ∃ txsF, (process_new_block H difficulty st b).2.blockchain =
        st.blockchain ++
          [{ (validate_block H difficulty st.account_balances st.engine b).2.1 with
              transactions := txsF }]) := by
  unfold process_new_block
  rcases hv : validate_block H difficulty st.account_balances st.engine b with ⟨ok, b2, eng1⟩
  cases ok with
  | false => exact Or.inl ⟨rfl, rfl, rfl, rfl, rfl⟩
  | true =>
    cases hl : st.blockchain.getLast? with
    | none =>
      obtain ⟨hc1, txsF, hc2⟩ := commit_block_spec { st with engine := eng1 } b2
      exact Or.inr ⟨hc1, rfl, txsF, hc2⟩
    | some tip =>
      dsimp only
      by_cases hf : b2.previous_hash ≠ tip.hash ∧ b2.height ≤ tip.height
      · rw [if_pos hf]
        exact Or.inl ⟨rfl, rfl, rfl, rfl, rfl⟩
      · rw [if_neg hf]
        obtain ⟨hc1, txsF, hc2⟩ := commit_block_spec { st with engine := eng1 } b2
        exact Or.inr ⟨hc1, rfl, txsF, hc2⟩

/-- On a transaction explicitly typed `"transfer"`, `validate_transaction`
is the pure transfer check: it mutates neither the transaction nor the
engine state. -/
theorem validate_transaction_transfer (balances : List (String × Int))
    (eng : EngineState) (tx : Transaction) (h : tx.type = some "transfer") :
    validate_transaction balances eng tx =
      (validate_transfer_transaction balances tx, tx, eng) := by
  unfold validate_transaction
  rw [show (if tx.type.isNone = true then { tx with type := some "transfer" }
      else tx) = tx by rw [h]; rfl]
  dsimp only
  rw [h]
  rfl

/-- On a list of explicitly-typed transfers, the transaction loop of
`validate_block` returns the transactions and the engine state
unchanged. -/
theorem validate_block_txs_transfers (balances : List (String × Int))
    (eng : EngineState) (txs : List Transaction)
    (h : ∀ tx ∈ txs, tx.type = some "transfer") :
    ∃ ok, validate_block_txs balances eng txs = (txs, eng, ok) := by
  induction txs with
  | nil => exact ⟨true, rfl⟩
  | cons tx rest ih =>
    have htx : tx.type = some "transfer" := h tx (by simp)
    have hrest : ∀ t ∈ rest, t.type = some "transfer" :=
      fun t ht => h t (List.mem_cons_of_mem _ ht)
    obtain ⟨ok, hok⟩ := ih hrest
    unfold validate_block_txs
    rw [validate_transaction_transfer balances eng tx htx]
    dsimp only
    cases hvt : validate_transfer_transaction balances tx with
    | false =>
      rw [if_neg (by simp)]
      rw [hok]
      exact ⟨_, rfl⟩
    | true =>
      rw [if_pos rfl]
      rw [if_neg (by simp [htx]), if_neg (by simp [htx])]
      rw [hok]
      exact ⟨_, rfl⟩

/-- On a block of explicitly-typed transfers, `validate_block` returns
the block and the engine unchanged, and a `true` verdict certifies the
hash and difficulty checks. -/
theorem validate_block_transfers (H : BlockContent → Digest) (difficulty : Nat)
    (balances : List (String × Int)) (eng : EngineState) (b : Block)
    (h : ∀ tx ∈ b.transactions, tx.type = some "transfer") :
    ∃ ok, validate_block H difficulty balances eng b = (ok, b, eng) ∧
      (ok = true → H b.toBlockContent = b.hash ∧
        startsWithZeros b.hash difficulty = true) := by
  unfold validate_block
  by_cases h1 : H b.toBlockContent = b.hash
  · rw [if_neg (not_not_intro h1)]
    by_cases h2 : startsWithZeros b.hash difficulty = true
    · rw [if_neg (not_not_intro h2)]
      obtain ⟨ok, hok⟩ := validate_block_txs_transfers balances eng b.transactions h
      rw [hok]
      exact ⟨ok, rfl, fun _ => ⟨h1, h2⟩⟩
    · rw [if_pos h2]
      exact ⟨false, rfl, by simp⟩
  · rw [if_pos h1]
    exact ⟨false, rfl, by simp⟩

/-- Committing a transaction explicitly typed `"transfer"` touches only
the balances: the transaction and the engine state pass through. -/
theorem process_transaction_transfer (balances : List (String × Int))
    (eng : EngineState) (tx : Transaction) (h : tx.type = some "transfer") :
    ∃ ok bal', process_transaction balances eng tx = (ok, tx, bal', eng) := by
  unfold process_transaction
  rw [h]
  dsimp only [Option.getD_some]
  rcases hp : process_transfer_transaction balances tx with ⟨ok, bal'⟩
  exact ⟨ok, bal', rfl⟩

/-- The commit loop on a list of explicitly-typed transfers keeps the
transactions and the engine state unchanged. -/
theorem process_block_txs_transfers (balances : List (String × Int))
    (eng : EngineState) (pending txs : List Transaction)
    (h : ∀ tx ∈ txs, tx.type = some "transfer") :
    ∃ balF pendF,
      process_block_txs balances eng pending txs = (balF, eng, txs, pendF) := by
  induction txs generalizing balances pending with
  | nil => exact ⟨balances, pending, rfl⟩
  | cons tx rest ih =>
    have htx : tx.type = some "transfer" := h tx (by simp)
    have hrest : ∀ t ∈ rest, t.type = some "transfer" :=
      fun t ht => h t (List.mem_cons_of_mem _ ht)
    obtain ⟨ok, bal', hpt⟩ := process_transaction_transfer balances eng tx htx
    obtain ⟨balF, pendF, hr⟩ := ih bal' (removeMatching pending tx) hrest
    refine ⟨balF, pendF, ?_⟩
    unfold process_block_txs
    rw [hpt]
    dsimp only
    rw [hr]

/-- Committing a block of explicitly-typed transfers appends the block
exactly as validated. -/
theorem commit_block_transfers (st : NodeState) (b : Block)
    (h : ∀ tx ∈ b.transactions, tx.type = some "transfer") :
    (commit_block st b).2.blockchain = st.blockchain ++ [b] := by
  unfold commit_block
  obtain ⟨balF, pendF, hpt⟩ :=
    process_block_txs_transfers st.account_balances st.engine
      st.pending_transactions b.transactions h
  rw [hpt]

/-- Admission of a block of explicitly-typed transfers: the chain is
unchanged, or the block is appended verbatim with its hash and
difficulty checks certified. -/
theorem process_new_block_transfers (H : BlockContent → Digest)
    (difficulty : Nat) (st : NodeState) (b : Block)
    (h : ∀ tx ∈ b.transactions, tx.type = some "transfer") :
    (process_new_block H difficulty st b).2.blockchain = st.blockchain ∨
    ((process_new_block H difficulty st b).2.blockchain = st.blockchain ++ [b] ∧
      H b.toBlockContent = b.hash ∧
      startsWithZeros b.hash difficulty = true) := by
  unfold process_new_block
  obtain ⟨ok, hval, himp⟩ :=
    validate_block_transfers H difficulty st.account_balances st.engine b h
  rw [hval]
  cases ok with
  | false => exact Or.inl rfl
  | true =>
    obtain ⟨hh, hd⟩ := himp rfl
    cases hl : st.blockchain.getLast? with
    | none =>
      exact Or.inr ⟨commit_block_transfers { st with engine := st.engine } b h, hh, hd⟩
    | some tip =>
      dsimp only
      by_cases hf : b.previous_hash ≠ tip.hash ∧ b.height ≤ tip.height
      · rw [if_pos hf]
        exact Or.inl rfl
      · rw [if_neg hf]
        exact Or.inr ⟨commit_block_transfers { st with engine := st.engine } b h, hh, hd⟩

/-- Admission preserves "every non-genesis chain block meets the
difficulty predicate". -/
theorem process_preserves_diff (H : BlockContent → Digest) (difficulty : Nat)
    (st : NodeState) (b : Block)
    (hP : ∀ B ∈ st.blockchain.drop 1, startsWithZeros B.hash difficulty = true) :
    ∀ B ∈ (process_new_block H difficulty st b).2.blockchain.drop 1,
      startsWithZeros B.hash difficulty = true := by
  rcases process_new_block_cases H difficulty st b with
    ⟨-, hch, -, -, -⟩ | ⟨-, hval, txsF, hch⟩
  · rw [hch]; exact hP
  · rw [hch]
    intro B hB
    rcases mem_drop_one_append _ _ _ hB with h1 | h2
    · exact hP B h1
    · obtain ⟨-, hd⟩ := validate_block_true H difficulty
        st.account_balances st.engine b hval
      have hfields := validate_block_fields H difficulty
        st.account_balances st.engine b
      rw [h2]
      show startsWithZeros (validate_block H difficulty
        st.account_balances st.engine b).2.1.hash difficulty = true
      rw [hfields.2.2.1]
      exact hd

/-- Admission of explicitly-typed transfer blocks preserves "every chain
block recomputes to its stored hash". -/
theorem process_preserves_hashinv (H : BlockContent → Digest) (difficulty : Nat)
    (st : NodeState) (b : Block)
    (hb : ∀ tx ∈ b.transactions, tx.type = some "transfer")
    (hP : ∀ B ∈ st.blockchain, H B.toBlockContent = B.hash) :
    ∀ B ∈ (process_new_block H difficulty st b).2.blockchain,
      H B.toBlockContent = B.hash := by
  rcases process_new_block_transfers H difficulty st b hb with hch | ⟨hch, hh, -⟩
  · rw [hch]; exact hP
  · rw [hch]
    intro B hB
    rcases List.mem_append.mp hB with h1 | h2
    · exact hP B h1
    · rw [List.mem_singleton.mp h2]
      exact hh

/-- Folding admission preserves the difficulty property of non-genesis
blocks. -/
theorem admit_preserves_diff (H : BlockContent → Digest) (difficulty : Nat)
    (bs : List Block) (st : NodeState)
    (hP : ∀ B ∈ st.blockchain.drop 1, startsWithZeros B.hash difficulty = true) :
    ∀ B ∈ (admitBlocks H difficulty st bs).blockchain.drop 1,
      startsWithZeros B.hash difficulty = true := by
  induction bs generalizing st with
  | nil => exact hP
  | cons b rest ih =>
    exact ih _ (process_preserves_diff H difficulty st b hP)

/-- Folding admission of explicitly-typed transfer blocks preserves the
stored-hash property of all chain blocks. -/
theorem admit_preserves_hashinv (H : BlockContent → Digest) (difficulty : Nat)
    (bs : List Block) (st : NodeState)
    (hbs : ∀ b ∈ bs, ∀ tx ∈ b.transactions, tx.type = some "transfer")
    (hP : ∀ B ∈ st.blockchain, H B.toBlockContent = B.hash) :
    ∀ B ∈ (admitBlocks H difficulty st bs).blockchain,
      H B.toBlockContent = B.hash := by
  induction bs generalizing st with
  | nil => exact hP
  | cons b rest ih =>
    exact ih _ (fun b' hb' => hbs b' (List.mem_cons_of_mem _ hb'))
      (process_preserves_hashinv H difficulty st b (hbs b (by simp)) hP)

/-! ### Claim theorems -/

/-- C3: a block whose recomputed hash differs from its stored `hash`
field is rejected by `process_new_block`, and the node state — in
particular the blockchain, account balances, mined-nonce set and mempool
— is returned unchanged. -/
theorem hash_mismatch_block_rejected (H : BlockContent → Digest)
    (difficulty : Nat) (st : NodeState) (b : Block)
    (h : H b.toBlockContent ≠ b.hash) :
    process_new_block H difficulty st b = (false, st) := by
  unfold process_new_block validate_block
  rw [if_pos h]

/-- Witness for C3: a concrete all-`f`-hash block under the all-zero
hash oracle is rejected with the state unchanged. -/
theorem hash_mismatch_block_rejected_witness :
    process_new_block Hc 4 st0 badHashBlock = (false, st0) :=
  hash_mismatch_block_rejected Hc 4 st0 badHashBlock (by decide)

/-- C4: `validate_transfer_transaction` returns `true` exactly when all
of `timestamp, from, to, value, signature` are present and either the
sender is `COINBASE` or the sender has an account with balance at least
the transferred value; any missing field yields `false`. -/
theorem validate_transfer_transaction_spec (balances : List (String × Int))
    (tx : Transaction) :
    validate_transfer_transaction balances tx = true ↔
      (tx.timestamp.isSome ∧ tx.from_.isSome ∧ tx.to_.isSome ∧
        tx.value.isSome ∧ tx.signature.isSome ∧
        (tx.from_ = some "COINBASE" ∨
          ∃ b, lookupAssoc balances (tx.from_.getD "") = some b ∧
            tx.value.getD 0 ≤ b)) := by
  rcases tx with ⟨ts, fr, tto, val, sig, ty, cd, cid, fn, ar, res⟩
  cases ts <;> cases fr <;> cases tto <;> cases val <;> cases sig <;>
    simp [validate_transfer_transaction]
  rename_i t sender tov v s
  by_cases hc : sender = "COINBASE"
  · simp [hc]
  · simp only [hc, false_or, Option.some.injEq]
    cases hl : lookupAssoc balances sender with
    | none => simp
    | some b => simp [not_lt]

/-- C10: `process_new_block` discards the boolean result of
`process_transaction`.  Concretely: a block holding two 60-coin
transfers from `A` (balance 100) is admitted; the first transfer is
applied, the second — insufficient at commit time — is silently skipped
with no balance change, the block stays appended with both transactions,
and admission reports success. -/
theorem overspending_transfer_silently_skipped :
    (process_new_block Hc 4 st10 blockOverspend).1 = true ∧
    (process_new_block Hc 4 st10 blockOverspend).2.blockchain.length = 2 ∧
    (process_new_block Hc 4 st10 blockOverspend).2.blockchain.getLast? =
      some blockOverspend ∧
    lookupAssoc (process_new_block Hc 4 st10 blockOverspend).2.account_balances
      "A" = some 40 ∧
    lookupAssoc (process_new_block Hc 4 st10 blockOverspend).2.account_balances
      "B" = some 60 ∧
    lookupAssoc (process_new_block Hc 4 st10 blockOverspend).2.account_balances
      "C" = none :=
  ⟨rfl, rfl, rfl, rfl, rfl, rfl⟩

/-- C2 (counterexample): `process_new_block` records but never checks
nonces, so a valid peer block reusing the tip's nonce (0, also already in
the mined-nonce set) is admitted, leaving two chain blocks with the same
nonce. -/
theorem duplicate_nonce_admitted :
    stC2.mined_nonces = [0] ∧
    (process_new_block Hc 4 stC2 blockDupNonce).1 = true ∧
    (process_new_block Hc 4 stC2 blockDupNonce).2.blockchain.map
      (fun b => b.nonce) = [0, 0] :=
  ⟨rfl, rfl, rfl⟩

/-- C2 (amended): locally mined blocks never reuse a nonce — a block
returned by `mine_block` has a nonce outside the mined-nonce set, meets
the difficulty predicate, and carries its recomputed hash.  (Admission
of received blocks performs no such check, see the counterexample.) -/
theorem mine_block_fresh_nonce (H : BlockContent → Digest) (difficulty : Nat)
    (minedNonces : List Nat) (txs : List Transaction) (prev : Digest)
    (height ts : Int) (draws : List Nat) (blk : Block)
    (h : mine_block H difficulty minedNonces txs prev height ts draws = some blk) :
    minedNonces.contains blk.nonce = false ∧
    startsWithZeros blk.hash difficulty = true ∧
    H blk.toBlockContent = blk.hash := by
  unfold mine_block at h
  generalize draws.take 10000 = l at h
  induction l with
  | nil => simp [mine_block_go] at h
  | cons n rest ih =>
    rw [mine_block_go] at h
    split at h
    · rename_i hcond
      rw [Bool.and_eq_true] at hcond
      obtain ⟨h1, h2⟩ := hcond
      injection h with h
      subst h
      exact ⟨by simpa using h1, h2, rfl⟩
    · exact ih h

/-- Witness for the amended C2: with nonce 1 already used, the miner
skips draw 1 and returns a block with the fresh nonce 2. -/
theorem mine_block_fresh_nonce_witness :
    ([1] : List Nat).contains minedBlockW.nonce = false ∧
    startsWithZeros minedBlockW.hash 4 = true ∧
    Hc minedBlockW.toBlockContent = minedBlockW.hash :=
  mine_block_fresh_nonce Hc 4 [1] [] (List.replicate 64 0) 1 5 [1, 2]
    minedBlockW rfl

/-- C1 (counterexample): a valid block at the tip's own height whose
`previous_hash` matches the tip is **admitted** — the height comparison
is only applied to blocks whose `previous_hash` differs from the tip's
hash, so `height ≤ tip.height` alone does not cause rejection. -/
theorem low_height_block_admitted :
    blockDupHeight.height ≤ tip0.height ∧
    (process_new_block Hc 4 st0 blockDupHeight).1 = true ∧
    (process_new_block Hc 4 st0 blockDupHeight).2.blockchain.length = 2 :=
  ⟨by decide, rfl, rfl⟩

/-- C1 (amended): (1) a block whose `previous_hash` differs from the
tip's hash and whose height is at most the tip's is rejected with the
ledger structures unchanged; (2) a block with `previous_hash` equal to
the tip's hash and height `tip.height + 1` that passes `validate_block`
is admitted and appended (its transactions possibly rewritten by
validation). -/
theorem fork_rule_spec (H : BlockContent → Digest) (difficulty : Nat)
    (st : NodeState) (b : Block) (tip : Block)
    (htip : st.blockchain.getLast? = some tip) :
    (b.previous_hash ≠ tip.hash → b.height ≤ tip.height →
      (process_new_block H difficulty st b).1 = false ∧
      (process_new_block H difficulty st b).2.blockchain = st.blockchain ∧
      (process_new_block H difficulty st b).2.account_balances =
        st.account_balances ∧
      (process_new_block H difficulty st b).2.mined_nonces = st.mined_nonces ∧
      (process_new_block H difficulty st b).2.pending_transactions =
        st.pending_transactions) ∧
    (b.previous_hash = tip.hash → b.height = tip.height + 1 →
      (validate_block H difficulty st.account_balances st.engine b).1 = true →
      (process_new_block H difficulty st b).1 = true ∧
      ∃ bS, (process_new_block H difficulty st b).2.blockchain =
          st.blockchain ++ [bS] ∧
        bS.height = b.height ∧ bS.previous_hash = b.previous_hash ∧
        bS.hash = b.hash ∧ bS.nonce = b.nonce) := by
  have hfields := validate_block_fields H difficulty st.account_balances st.engine b
  unfold process_new_block
  rcases hv : validate_block H difficulty st.account_balances st.engine b with
    ⟨ok, b2, eng1⟩
  rw [hv] at hfields
  cases ok with
  | false =>
    constructor
    · intro _ _
      exact ⟨rfl, rfl, rfl, rfl, rfl⟩
    · intro _ _ hval
      exact absurd hval (by simp)
  | true =>
    rw [htip]
    dsimp only
    constructor
    · intro hne hle
      rw [if_pos ⟨by rw [hfields.2.1]; exact hne, by rw [hfields.1]; exact hle⟩]
      exact ⟨rfl, rfl, rfl, rfl, rfl⟩
    · intro heq _ _
      rw [if_neg (fun hcon => hcon.1 (by rw [hfields.2.1]; exact heq))]
      obtain ⟨hc1, txsF, hc2⟩ := commit_block_spec { st with engine := eng1 } b2
      exact ⟨hc1, { b2 with transactions := txsF }, hc2, hfields.1,
        hfields.2.1, hfields.2.2.1, hfields.2.2.2⟩

/-- Witness for the amended C1: a prev-hash-mismatching block at the
tip's height is rejected; a valid successor block is admitted. -/
theorem fork_rule_spec_witness :
    (process_new_block Hc 4 st0 blockPrevMismatch).1 = false ∧
    (process_new_block Hc 4 st0 blockNext).1 = true := by
  constructor
  · exact ((fork_rule_spec Hc 4 st0 blockPrevMismatch tip0 rfl).1
      (by decide) (by decide)).1
  · exact ((fork_rule_spec Hc 4 st0 blockNext tip0 rfl).2 rfl (by decide) rfl).1

/-- C5: when the executed contract function raises, `execute_contract`
returns (never propagates) a failed result whose output carries the
fault message, and the function's `set_state` writes made before the
fault are committed to the contract state store — no rollback to the
pre-call state. -/
theorem execute_contract_fault_no_rollback (S : EngineState)
    (cid caller fn : String) (args : List (String × PyValue)) (ct : Contract)
    (f : ContractFn) (msg : String) (ws : List (String × PyValue))
    (hc : lookupAssoc S.deployed_contracts cid = some ct)
    (hf : lookupAssoc ct.code.fns fn = some f)
    (ho : f { contract_id := cid, caller := caller, args := args,
              now := S.clock S.tick }
        (localView S.contract_state_db cid) = { ret := .error msg, writes := ws }) :
    execute_contract S cid caller fn args =
      ({ success := false, output := .str ("Fail: " ++ msg) },
       { S with contract_state_db := applyWrites S.contract_state_db cid ws,
                tick := S.tick + 1 }) := by
  unfold execute_contract
  rw [hc]
  dsimp only
  rw [hf]
  dsimp only
  rw [ho]

/-- Witness for C5 (the claim's scenario): on the transfer contract with
balance 100, `withdraw` of 150 fails with `"Fail: Insufficient balance"`
and the stored balance remains 100. -/
theorem execute_contract_fault_no_rollback_witness :
    (execute_contract E5deposit "c1" "alice" "withdraw"
        [("amount", .int 150)]).1 =
      { success := false, output := .str "Fail: Insufficient balance" } ∧
    lookupAssoc (execute_contract E5deposit "c1" "alice" "withdraw"
        [("amount", .int 150)]).2.contract_state_db "c1-balance" =
      some (.int 100) := by
  have h := execute_contract_fault_no_rollback E5deposit "c1" "alice" "withdraw"
    [("amount", PyValue.int 150)] { code := transferCode, owner := "alice" }
    transferWithdraw "Insufficient balance" [] rfl rfl rfl
  rw [h]
  exact ⟨rfl, rfl⟩

/-- C6 (counterexample): contract execution is **not** a function of
`(contract_id, caller, function, args, pre-call contract state)` alone —
the capability environment exposes the wall clock, and the repository's
own auction contract stores `duration + time.time()` in `init`.  Two
engine states agreeing on the deployed contracts and the contract state
db but read at different times produce different outputs and different
state deltas. -/
theorem clock_dependent_execution :
    S6a.deployed_contracts = S6b.deployed_contracts ∧
    S6a.contract_state_db = S6b.contract_state_db ∧
    (execute_contract S6a "a1" "alice" "init" []).1.output ≠
      (execute_contract S6b "a1" "alice" "init" []).1.output ∧
    (execute_contract S6a "a1" "alice" "init" []).2.contract_state_db ≠
      (execute_contract S6b "a1" "alice" "init" []).2.contract_state_db :=
  ⟨rfl, rfl, by decide, by decide⟩

/-- C6 (amended): two invocations of `execute_contract` from the same
deployed contracts, the same contract state, and the same clock reading
produce the same result (success flag and output) and the same post-call
contract state. -/
theorem execute_contract_deterministic (S1 S2 : EngineState)
    (cid caller fn : String) (args : List (String × PyValue))
    (h1 : S1.deployed_contracts = S2.deployed_contracts)
    (h2 : S1.contract_state_db = S2.contract_state_db)
    (h3 : S1.clock S1.tick = S2.clock S2.tick) :
    (execute_contract S1 cid caller fn args).1 =
      (execute_contract S2 cid caller fn args).1 ∧
    (execute_contract S1 cid caller fn args).2.contract_state_db =
      (execute_contract S2 cid caller fn args).2.contract_state_db := by
  unfold execute_contract
  rw [h1, h2, h3]
  cases hct : lookupAssoc S2.deployed_contracts cid with
  | none => exact ⟨rfl, h2⟩
  | some ct =>
    dsimp only
    cases hfn : lookupAssoc ct.code.fns fn with
    | none => exact ⟨rfl, h2⟩
    | some f =>
      dsimp only
      generalize f { contract_id := cid, caller := caller, args := args, now := S2.clock S2.tick } (localView S2.contract_state_db cid) = o
      cases o.ret with
      | ok v => exact ⟨rfl, rfl⟩
      | error m => exact ⟨rfl, rfl⟩

/-- Witness for the amended C6: two engine states differing only in
their `rng` oracle (same contracts, state and clock reading) execute the
auction `init` identically. -/
theorem execute_contract_deterministic_witness :
    (execute_contract S6a "a1" "alice" "init" []).1 =
      (execute_contract S6c "a1" "alice" "init" []).1 ∧
    (execute_contract S6a "a1" "alice" "init" []).2.contract_state_db =
      (execute_contract S6c "a1" "alice" "init" []).2.contract_state_db :=
  execute_contract_deterministic S6a S6c "a1" "alice" "init" [] rfl rfl rfl

/-- C9: validating a deploy transaction durably writes the contract into
the deployed-contract store, and re-invoking `Deploy` for the same
transaction at commit time is **not** idempotent — it derives a fresh id
from a new `(time, random)` draw and adds a second, distinct store entry,
while the transaction keeps the validation-time id. -/
theorem deploy_revalidation_not_idempotent :
    (validate_deploy_contract_transaction bal9 E9 tx9).1 = true ∧
    (validate_deploy_contract_transaction bal9 E9 tx9).2.2.deployed_contracts.map
      Prod.fst = ["id0"] ∧
    (validate_deploy_contract_transaction bal9 E9 tx9).2.1.contract_id =
      some "id0" ∧
    (process_deploy_contract_transaction
        (validate_deploy_contract_transaction bal9 E9 tx9).2.2
        (validate_deploy_contract_transaction bal9 E9 tx9).2.1).1 = true ∧
    (process_deploy_contract_transaction
        (validate_deploy_contract_transaction bal9 E9 tx9).2.2
        (validate_deploy_contract_transaction bal9 E9 tx9).2.1).2.2.deployed_contracts.map
      Prod.fst = ["id0", "id1"] ∧
    (process_deploy_contract_transaction
        (validate_deploy_contract_transaction bal9 E9 tx9).2.2
        (validate_deploy_contract_transaction bal9 E9 tx9).2.1).2.1.contract_id =
      some "id0" :=
  ⟨rfl, by decide, by decide, rfl, by decide, by decide⟩

/-- C8 (counterexample): the digest `0x0fff...f` begins with one zero
nibble, but its integer value `16^63 - 1` equals — is not below — the
target `(2^256 - 1) >> 4`; the two predicates of the claim are not
equivalent. -/
theorem zero_prefix_not_below_target :
    startsWithZeros digest0f 1 = true ∧
    ¬ (nibblesVal digest0f < calculate_target 1) :=
  ⟨by decide, by decide⟩

/-- C8 (amended): for a 256-bit digest (64 nibbles, each `< 16`) and any
difficulty `0 ≤ d ≤ 64`, the hex representation begins with `d` zero
nibbles iff the digest's integer value is **at most** (not strictly
below) the target `(2^256 - 1) >> (d * 4)`.  (For `d > 64` no
64-character hex string starts with `d` zeros while the zero digest
still satisfies `value ≤ target`, so the bound on `d` is necessary.) -/
theorem startsWithZeros_iff_le_target (l : Digest) (hb : ∀ x ∈ l, x < 16)
    (hlen : l.length = 64) (d : Nat) (hd : d ≤ 64) :
    startsWithZeros l d = true ↔ nibblesVal l ≤ calculate_target d := by
  have h1 := take_all_zero_iff l hb d
  rw [hlen] at h1
  have h2 := target_succ d
  unfold startsWithZeros
  rw [hlen, Bool.and_eq_true, decide_eq_true_iff]
  simp only [hd, true_and]
  rw [h1]
  omega

/-- Witness for the amended C8 at the all-zero digest and the default
difficulty 4. -/
theorem startsWithZeros_iff_le_target_witness :
    startsWithZeros (List.replicate 64 0) 4 = true ↔
      nibblesVal (List.replicate 64 0) ≤ calculate_target 4 :=
  startsWithZeros_iff_le_target (List.replicate 64 0) (by decide) (by decide) 4
    (by decide)

/-- C7 (amended): in every node state reached from the initial state by
a sequence of admissions, (1) every **non-genesis** chain block meets
the difficulty predicate, and (2) provided the admitted blocks carry
only explicitly-typed transfer transactions, every chain block — the
genesis included — recomputes to its stored hash.  (The genesis block is
never difficulty-checked, and validation rewrites contract and untyped
transactions in place, which can break stored-hash recomputation — see
the counterexample.) -/
theorem chain_hash_difficulty_invariant (H : BlockContent → Digest)
    (difficulty : Nat) (nodeAddr : String) (genesisTime : Int)
    (eng : EngineState) (bs : List Block) :
    (∀ B ∈ (admitBlocks H difficulty (initial_state H nodeAddr genesisTime eng)
        bs).blockchain.drop 1, startsWithZeros B.hash difficulty = true) ∧
    ((∀ b ∈ bs, ∀ tx ∈ b.transactions, tx.type = some "transfer") →
      ∀ B ∈ (admitBlocks H difficulty (initial_state H nodeAddr genesisTime eng)
          bs).blockchain, H B.toBlockContent = B.hash) := by
  constructor
  · apply admit_preserves_diff
    intro B hB
    simp [initial_state] at hB
  · intro hbs
    apply admit_preserves_hashinv H difficulty bs _ hbs
    intro B hB
    have hg : B = create_genesis_block H genesisTime := by
      simpa [initial_state] using hB
    rw [hg]
    rfl

/-- C7 (counterexample): (1) the genesis block is created without any
difficulty check — under a hash oracle returning all-`f` digests its
hash has no leading zero nibble at the default difficulty 4; (2) an
admitted block containing a deploy transaction no longer recomputes to
its stored hash, because validation rewrote the transaction's
`contract_id`/`result` in place after the hash was checked. -/
theorem genesis_and_rewritten_deploy_break_invariant :
    (create_genesis_block Hcx 0 ∈ (initial_state Hcx "N" 0 engine0).blockchain ∧
      startsWithZeros (create_genesis_block Hcx 0).hash 4 = false) ∧
    ((process_new_block HX 0 stX blockD).1 = true ∧
      (process_new_block HX 0 stX blockD).2.blockchain.getLast? =
        some blockDstored ∧
      HX blockDstored.toBlockContent ≠ blockDstored.hash) :=
  ⟨⟨List.mem_singleton.mpr rfl, rfl⟩, rfl, rfl, by decide⟩

/-- Witness for the amended C7: admitting one valid empty block over the
initial chain, the admitted block meets the difficulty predicate and the
genesis block recomputes to its stored hash. -/
theorem chain_hash_difficulty_invariant_witness :
    startsWithZeros blockNext.hash 4 = true ∧
    Hc (create_genesis_block Hc 0).toBlockContent =
      (create_genesis_block Hc 0).hash := by
  have h := chain_hash_difficulty_invariant Hc 4 "N" 0 engine0 [blockNext]
  constructor
  · exact h.1 blockNext (List.mem_singleton.mpr rfl)
  · refine h.2 ?_ (create_genesis_block Hc 0) ?_
    · intro b hb tx htx
      rw [List.mem_singleton] at hb
      subst hb
      simp [blockNext] at htx
    · exact List.mem_cons_self _ _
